import Mathlib

/-!
Shallow embedding of the reference floating-point multiplier and the
comparison harness of `src/dv/tb_fmul.cpp` (a Verilator testbench for a
DAZ/FTZ single-precision multiplier with a single fixed quiet-NaN
pattern), together with proofs of the specified properties.

A 32-bit operand is modelled as a `Nat` (callers restrict to values
below `2 ^ 32` where the statement needs it); the C bit operations
`>>`, `<<`, `&`, `|`, `^` become `>>>`, `<<<`, `&&&`, `|||`, `^^^` on
`Nat`, and the `int` exponent arithmetic becomes `Int` arithmetic.
-/

/-- Field extraction helper: bit 31 of the pattern (line 52 of the source). -/
def sign_bit (x : Nat) : Nat := x >>> 31

/-- Field extraction helper: biased exponent, bits 30..23 (line 53). -/
def exp_field (x : Nat) : Nat := (x >>> 23) &&& 0xFF

/-- Field extraction helper: fraction, bits 22..0 (line 54). -/
def frac_field (x : Nat) : Nat := x &&& 0x7FFFFF

/-- Classifier `is_nan_bits` (lines 57-59). -/
def is_nan_bits (x : Nat) : Bool := exp_field x == 0xFF && frac_field x != 0

/-- Classifier `is_inf_bits` (lines 61-63). -/
def is_inf_bits (x : Nat) : Bool := exp_field x == 0xFF && frac_field x == 0

/-- Classifier `is_zero_bits` (lines 65-67). -/
def is_zero_bits (x : Nat) : Bool := exp_field x == 0 && frac_field x == 0

/-- Classifier `is_sub_bits` (lines 69-71). -/
def is_sub_bits (x : Nat) : Bool := exp_field x == 0 && frac_field x != 0

/-- The unique quiet-NaN pattern `qnan_const` (line 73). -/
def qnan_const : Nat := 0x7FC00000

/-- Output record `RefOut` of the reference model (lines 76-82). -/
structure RefOut where
  y : Nat
  invalid : Bool
  overflow : Bool
  underflow : Bool
  inexact : Bool
deriving DecidableEq

/-- `pack_signed_zero` (lines 85-87). -/
def pack_signed_zero (sign : Nat) : Nat := sign <<< 31

/-- Result sign `s = (sign_bit(a) ^ sign_bit(b)) & 1` (line 97). -/
def res_sign (a b : Nat) : Nat := (sign_bit a ^^^ sign_bit b) &&& 1

/-- Effectively-zero test: zero or subnormal operand (lines 106-107). -/
def eff_zero (x : Nat) : Bool := is_zero_bits x || is_sub_bits x

/-- Unbiased product exponent `expP_unbiased` (lines 145-147). -/
def prod_exp (a b : Nat) : Int :=
  ((exp_field a : Int) - 127) + ((exp_field b : Int) - 127)

/-- Exact 48-bit significand product `prod = sigA * sigB` with hidden
bits attached (lines 141-142 and 150). -/
def prod_sig (a b : Nat) : Nat :=
  (((1 : Nat) <<< 23) ||| frac_field a) * (((1 : Nat) <<< 23) ||| frac_field b)

/-- Product after the normalization shift of lines 155-158: if bit 47
is set the product is shifted right by one. -/
def shifted_prod (prod : Nat) : Nat :=
  if prod &&& ((1 : Nat) <<< 47) ≠ 0 then prod >>> 1 else prod

/-- Exponent after the normalization shift of lines 155-158. -/
def shifted_exp (expP : Int) (prod : Nat) : Int :=
  if prod &&& ((1 : Nat) <<< 47) ≠ 0 then expP + 1 else expP

/-- `upper_bits`: retained 24-bit significand, bits 46..23 of the
shifted product (line 162). -/
def upper_bits (prod : Nat) : Nat := (shifted_prod prod >>> 23) &&& 0xFFFFFF

/-- Guard bit `G`, bit 22 of the shifted product (line 163). -/
def guard_bit (prod : Nat) : Nat := (shifted_prod prod >>> 22) &&& 1

/-- Round bit `R`, bit 21 of the shifted product (line 164). -/
def round_bit (prod : Nat) : Nat := (shifted_prod prod >>> 21) &&& 1

/-- `low21`, bits 20..0 of the shifted product (line 165). -/
def low21 (prod : Nat) : Nat := shifted_prod prod &&& (((1 : Nat) <<< 21) - 1)

/-- Sticky bit `S` (line 166). -/
def sticky_bit (prod : Nat) : Nat := if low21 prod ≠ 0 then 1 else 0

/-- Round-to-nearest-even increment `inc = G & (R | S | LSB)` (lines 169-170). -/
def round_inc (prod : Nat) : Nat :=
  guard_bit prod &&& (round_bit prod ||| sticky_bit prod ||| (upper_bits prod &&& 1))

/-- `upper_bits_rounded` before the carry-out renormalization (line 173). -/
def rounded_upper (prod : Nat) : Nat := upper_bits prod + round_inc prod

/-- Final unbiased exponent `expR_unbiased` after the carry-out
renormalization of lines 174-180. -/
def final_exp (expP : Int) (prod : Nat) : Int :=
  if rounded_upper prod &&& ((1 : Nat) <<< 24) ≠ 0 then shifted_exp expP prod + 1
  else shifted_exp expP prod

/-- Final retained significand after the carry-out renormalization of
lines 177-180. -/
def final_upper (prod : Nat) : Nat :=
  if rounded_upper prod &&& ((1 : Nat) <<< 24) ≠ 0 then rounded_upper prod >>> 1
  else rounded_upper prod

/-- Packed biased exponent `exp_out = (uint32_t)(expR_unbiased + 127) & 0xFF`
(line 205); the `int` to `uint32_t` cast is reduction modulo `2 ^ 32`. -/
def exp_out (expP : Int) (prod : Nat) : Nat :=
  (((final_exp expP prod + 127) % ((2 : Int) ^ 32)).toNat) &&& 0xFF

/-- Normal-by-normal tail of the reference model (lines 149-209): round
the 48-bit product and either overflow to infinity, flush to zero, or
pack a normal result. -/
def ref_normal (s : Nat) (expP : Int) (prod : Nat) : RefOut :=
  if final_exp expP prod > 127 then
    ⟨(s <<< 31) ||| ((0xFF : Nat) <<< 23), false, true, false, true⟩
  else if final_exp expP prod < -126 then
    ⟨pack_signed_zero s, false, false, true, true⟩
  else
    ⟨(s <<< 31) ||| (exp_out expP prod <<< 23) ||| (final_upper prod &&& 0x7FFFFF),
     false, false, false,
     (guard_bit prod ||| round_bit prod ||| sticky_bit prod) != 0⟩

/-- The reference model `ref_model` (lines 92-210): NaN dominance, then
invalid infinity-times-zero, then infinity propagation, then zero
propagation (with denormals treated as zero), then the normal path. -/
def ref_model (a b : Nat) : RefOut :=
  if is_nan_bits a || is_nan_bits b then
    ⟨qnan_const, false, false, false, false⟩
  else if (is_inf_bits a && eff_zero b) || (is_inf_bits b && eff_zero a) then
    ⟨qnan_const, true, false, false, false⟩
  else if is_inf_bits a || is_inf_bits b then
    ⟨(res_sign a b <<< 31) ||| ((0xFF : Nat) <<< 23), false, false, false, false⟩
  else if eff_zero a || eff_zero b then
    ⟨pack_signed_zero (res_sign a b), false, false, false, false⟩
  else
    ref_normal (res_sign a b) (prod_exp a b) (prod_sig a b)

/-- Derived classifier for a Normal pattern: biased exponent strictly
between 0 and 0xFF (the case left over once the four classifiers of
lines 57-71 have all answered no). -/
def is_normal_bits (x : Nat) : Bool := exp_field x != 0 && exp_field x != 0xFF

/-- Outputs sampled from the device under test, as read by `run_one`
(lines 313-317). -/
structure DutOut where
  y : Nat
  invalid : Bool
  overflow : Bool
  underflow : Bool
  inexact : Bool
deriving DecidableEq

/-- The two informational notes `run_one` can print (lines 341-346):
failure due to output mismatch with flag checking disabled, or output
match with flags ignored. -/
inductive MismatchNote where
  | yMismatch
  | flagsIgnored
deriving DecidableEq

/-- Comparison logic of `run_one` (lines 301-353), with the device
outputs passed in as data and the printed note returned as data; the
global toggles `CHECK_FLAGS` and `PRINT_OK` become parameters. Returns
the verdict `ok` and the informational note emitted, if any. -/
def run_one (check_flags print_ok verbose_on_fail : Bool) (d : DutOut)
    (a b : Nat) : Bool × Option MismatchNote :=
  let r := ref_model a b
  let ok_y := d.y == r.y
  let ok_flags := if check_flags then
      d.invalid == r.invalid && d.overflow == r.overflow &&
        d.underflow == r.underflow && d.inexact == r.inexact
    else true
  let ok := ok_y && ok_flags
  let note : Option MismatchNote :=
    if (!ok && verbose_on_fail) || (ok && print_ok) then
      if !ok && !check_flags && !ok_y then some MismatchNote.yMismatch
      else if !ok && !check_flags && ok_y then some MismatchNote.flagsIgnored
      else none
    else none
  (ok, note)

/-! ### Bit-level helper lemmas -/

theorem shl_one (n : Nat) : (1 : Nat) <<< n = 2 ^ n := by
  rw [Nat.shiftLeft_eq, Nat.one_mul]

theorem and_mask8 (x : Nat) : x &&& 0xFF = x % 2 ^ 8 := by
  have h : (0xFF : Nat) = 2 ^ 8 - 1 := by decide
  rw [h, Nat.and_pow_two_sub_one_eq_mod]

theorem and_mask23 (x : Nat) : x &&& 0x7FFFFF = x % 2 ^ 23 := by
  have h : (0x7FFFFF : Nat) = 2 ^ 23 - 1 := by decide
  rw [h, Nat.and_pow_two_sub_one_eq_mod]

theorem and_mask24 (x : Nat) : x &&& 0xFFFFFF = x % 2 ^ 24 := by
  have h : (0xFFFFFF : Nat) = 2 ^ 24 - 1 := by decide
  rw [h, Nat.and_pow_two_sub_one_eq_mod]

theorem and_mask21 (x : Nat) : x &&& (((1 : Nat) <<< 21) - 1) = x % 2 ^ 21 := by
  rw [shl_one]
  exact Nat.and_pow_two_sub_one_eq_mod x 21

theorem and_two_pow_eq_zero {x n : Nat} (h : x < 2 ^ n) : x &&& 2 ^ n = 0 := by
  apply Nat.eq_of_testBit_eq
  intro i
  simp only [Nat.testBit_and, Nat.testBit_two_pow, Nat.zero_testBit]
  by_cases hi : n = i
  · subst hi
    simp [Nat.testBit_lt_two_pow h]
  · simp [hi]

theorem and_one_shl_eq_zero {x n : Nat} (h : x < 2 ^ n) : x &&& ((1 : Nat) <<< n) = 0 := by
  rw [shl_one]
  exact and_two_pow_eq_zero h

theorem two_pow_or_eq_add {n f : Nat} (hf : f < 2 ^ n) : 2 ^ n ||| f = 2 ^ n + f := by
  apply Nat.eq_of_testBit_eq
  intro i
  rcases Nat.lt_trichotomy i n with hi | rfl | hi
  · have hsplit : (2 : Nat) ^ n = 2 ^ (n - i - 1) * 2 * 2 ^ i := by
      calc (2 : Nat) ^ n = 2 ^ (n - i - 1 + 1 + i) := by congr 1; omega
        _ = 2 ^ (n - i - 1 + 1) * 2 ^ i := by rw [pow_add]
        _ = 2 ^ (n - i - 1) * 2 * 2 ^ i := by rw [pow_succ]
    have harith : (2 ^ n + f) / 2 ^ i % 2 = f / 2 ^ i % 2 := by
      rw [hsplit, Nat.add_comm,
        Nat.add_mul_div_right _ _ (Nat.two_pow_pos i), Nat.add_mul_mod_self_right]
    rw [Nat.testBit_or, Nat.testBit_two_pow,
      Nat.testBit_to_div_mod (x := f), Nat.testBit_to_div_mod (x := 2 ^ n + f), harith]
    have hne : ¬ (n = i) := by omega
    simp [hne]
  · rw [Nat.testBit_or, Nat.testBit_two_pow,
      Nat.testBit_to_div_mod (x := f), Nat.testBit_to_div_mod (x := 2 ^ i + f),
      Nat.add_comm, Nat.add_div_right _ (Nat.two_pow_pos i),
      Nat.div_eq_of_lt hf]
    simp
  · have h1 : (2 : Nat) ^ n + f < 2 ^ i := by
      have : (2 : Nat) ^ (n + 1) ≤ 2 ^ i := Nat.pow_le_pow_right (by omega) (by omega)
      have h2 : (2 : Nat) ^ (n + 1) = 2 ^ n + 2 ^ n := by rw [pow_succ]; omega
      omega
    have h2 : f < 2 ^ i := by
      have : (2 : Nat) ^ n ≤ 2 ^ i := Nat.pow_le_pow_right (by omega) (by omega)
      omega
    rw [Nat.testBit_or, Nat.testBit_two_pow,
      Nat.testBit_lt_two_pow h1, Nat.testBit_lt_two_pow h2]
    have hne : ¬ (n = i) := by omega
    simp [hne]

theorem sign_bit_pack (s e f : Nat) (he : e < 2 ^ 8) (hf : f < 2 ^ 23) :
    sign_bit ((s <<< 31) ||| (e <<< 23) ||| f) = s := by
  unfold sign_bit
  apply Nat.eq_of_testBit_eq
  intro i
  simp only [Nat.testBit_shiftRight, Nat.testBit_or, Nat.testBit_shiftLeft]
  have hef : e.testBit (31 + i - 23) = false :=
    Nat.testBit_lt_two_pow
      (lt_of_lt_of_le he (Nat.pow_le_pow_right (by omega) (by omega)))
  have hff : f.testBit (31 + i) = false :=
    Nat.testBit_lt_two_pow
      (lt_of_lt_of_le hf (Nat.pow_le_pow_right (by omega) (by omega)))
  have h31 : 31 + i - 31 = i := by omega
  have hle : 31 ≤ 31 + i := by omega
  simp [hef, hff, h31, hle]

theorem exp_field_pack (s e f : Nat) (he : e < 2 ^ 8) (hf : f < 2 ^ 23) :
    exp_field ((s <<< 31) ||| (e <<< 23) ||| f) = e := by
  unfold exp_field
  have h8 : (0xFF : Nat) = 2 ^ 8 - 1 := by decide
  rw [h8]
  apply Nat.eq_of_testBit_eq
  intro i
  simp only [Nat.testBit_and, Nat.testBit_shiftRight, Nat.testBit_or,
    Nat.testBit_shiftLeft, Nat.testBit_two_pow_sub_one]
  by_cases hi : i < 8
  · have hno31 : ¬ (31 ≤ 23 + i) := by omega
    have hyes23 : 23 ≤ 23 + i := by omega
    have hsub : 23 + i - 23 = i := by omega
    have hff : f.testBit (23 + i) = false :=
      Nat.testBit_lt_two_pow
        (lt_of_lt_of_le hf (Nat.pow_le_pow_right (by omega) (by omega)))
    simp [hno31, hyes23, hsub, hff, hi]
  · have hef : e.testBit i = false :=
      Nat.testBit_lt_two_pow
        (lt_of_lt_of_le he (Nat.pow_le_pow_right (by omega) (by omega)))
    simp [hi, hef]

theorem frac_field_pack (s e f : Nat) (hf : f < 2 ^ 23) :
    frac_field ((s <<< 31) ||| (e <<< 23) ||| f) = f := by
  unfold frac_field
  have h23 : (0x7FFFFF : Nat) = 2 ^ 23 - 1 := by decide
  rw [h23]
  apply Nat.eq_of_testBit_eq
  intro i
  simp only [Nat.testBit_and, Nat.testBit_or, Nat.testBit_shiftLeft,
    Nat.testBit_two_pow_sub_one]
  by_cases hi : i < 23
  · have hno31 : ¬ (31 ≤ i) := by omega
    have hno23 : ¬ (23 ≤ i) := by omega
    simp [hno31, hno23, hi]
  · have hff : f.testBit i = false :=
      Nat.testBit_lt_two_pow
        (lt_of_lt_of_le hf (Nat.pow_le_pow_right (by omega) (by omega)))
    simp [hi, hff]

theorem unpack_fields (a : Nat) :
    (sign_bit a <<< 31) ||| (exp_field a <<< 23) ||| frac_field a = a := by
  unfold sign_bit exp_field frac_field
  have h8 : (0xFF : Nat) = 2 ^ 8 - 1 := by decide
  have h23 : (0x7FFFFF : Nat) = 2 ^ 23 - 1 := by decide
  rw [h8, h23]
  apply Nat.eq_of_testBit_eq
  intro i
  simp only [Nat.testBit_or, Nat.testBit_shiftLeft, Nat.testBit_shiftRight,
    Nat.testBit_and, Nat.testBit_two_pow_sub_one]
  rcases Nat.lt_or_ge i 23 with hi | hi
  · have hno31 : ¬ (31 ≤ i) := by omega
    have hno23 : ¬ (23 ≤ i) := by omega
    simp [hno31, hno23, hi]
  · rcases Nat.lt_or_ge i 31 with hi2 | hi2
    · have hno31 : ¬ (31 ≤ i) := by omega
      have hsub : 23 + (i - 23) = i := by omega
      have hlt8 : i - 23 < 8 := by omega
      have hnlt : ¬ (i < 23) := by omega
      simp [hno31, hi, hsub, hlt8, hnlt]
    · have hsub : 31 + (i - 31) = i := by omega
      have hnlt8 : ¬ (i - 23 < 8) := by omega
      have hnlt : ¬ (i < 23) := by omega
      have h23le : 23 ≤ i := by omega
      simp [hi2, hsub, hnlt8, hnlt, h23le]

theorem exp_field_lt (x : Nat) : exp_field x < 2 ^ 8 := by
  unfold exp_field
  rw [and_mask8]
  exact Nat.mod_lt _ (by norm_num)

theorem frac_field_lt (x : Nat) : frac_field x < 2 ^ 23 := by
  unfold frac_field
  rw [and_mask23]
  exact Nat.mod_lt _ (by norm_num)

theorem sign_bit_lt {a : Nat} (h : a < 2 ^ 32) : sign_bit a < 2 := by
  unfold sign_bit
  rw [Nat.shiftRight_eq_div_pow]
  omega

theorem res_sign_eq {a b : Nat} (ha : a < 2 ^ 32) (hb : b < 2 ^ 32) :
    res_sign a b = sign_bit a ^^^ sign_bit b := by
  unfold res_sign
  rw [Nat.and_one_is_mod]
  have h1 : sign_bit a < 2 ^ 1 := by rw [Nat.pow_one]; exact sign_bit_lt ha
  have h2 : sign_bit b < 2 ^ 1 := by rw [Nat.pow_one]; exact sign_bit_lt hb
  have h3 : sign_bit a ^^^ sign_bit b < 2 ^ 1 := Nat.xor_lt_two_pow h1 h2
  rw [Nat.pow_one] at h3
  omega

theorem res_sign_lt (a b : Nat) : res_sign a b < 2 := by
  unfold res_sign
  rw [Nat.and_one_is_mod]
  omega

theorem exp_out_lt (expP : Int) (prod : Nat) : exp_out expP prod < 2 ^ 8 := by
  unfold exp_out
  rw [and_mask8]
  exact Nat.mod_lt _ (by norm_num)

theorem is_normal_iff {x : Nat} :
    is_normal_bits x = true ↔ exp_field x ≠ 0 ∧ exp_field x ≠ 0xFF := by
  unfold is_normal_bits
  simp

theorem ref_model_normal_path {a b : Nat} (ha : is_normal_bits a = true)
    (hb : is_normal_bits b = true) :
    ref_model a b = ref_normal (res_sign a b) (prod_exp a b) (prod_sig a b) := by
  rw [is_normal_iff] at ha hb
  unfold ref_model
  simp [is_nan_bits, is_inf_bits, is_zero_bits, is_sub_bits, eff_zero,
    ha.1, ha.2, hb.1, hb.2]

/-! ### Claim theorems -/

/-- Claim C7: denormals-are-zero at the input. The minimal subnormal
times 1.0 gives signed zero 0x00000000 with underflow and every other
flag false: the subnormal operand is treated as zero at input, not
flushed with an underflow flag. -/
theorem ref_model_daz_input :
    ref_model 0x00000001 0x3F800000 = ⟨0x00000000, false, false, false, false⟩ := by
  decide

/-- Claim C1 is violated by the code: at the pair
(0x3FFFFFFF, 0x3FFFFFFF), which reaches the Normal-by-Normal path, the
exact 48-bit product is odd and has bit 47 set, so the step-d right
shift discards a nonzero bit; yet, since guard, round and sticky are
computed only from the already shifted product, ref_model reports
inexact = false. -/
theorem ref_model_inexact_ignores_shifted_out_bit :
    is_normal_bits 0x3FFFFFFF = true ∧
      prod_sig 0x3FFFFFFF 0x3FFFFFFF &&& ((1 : Nat) <<< 47) ≠ 0 ∧
      prod_sig 0x3FFFFFFF 0x3FFFFFFF &&& 1 = 1 ∧
      (ref_model 0x3FFFFFFF 0x3FFFFFFF).inexact = false := by
  decide

/-- Claim C2: for every pair of operands where either operand
classifies as NaN, ref_model returns exactly the bit pattern
0x7FC00000 with invalid and all other flags false. -/
theorem ref_model_nan_dominance {a b : Nat}
    (h : is_nan_bits a = true ∨ is_nan_bits b = true) :
    ref_model a b = ⟨0x7FC00000, false, false, false, false⟩ := by
  unfold ref_model
  rcases h with h | h <;> simp [h, qnan_const]

/-- Witness for claim C2 at the pair (0x7FC00001, 0x3F800000). -/
theorem ref_model_nan_dominance_witness :
    (is_nan_bits 0x7FC00001 = true ∨ is_nan_bits 0x3F800000 = true) ∧
      ref_model 0x7FC00001 0x3F800000 = ⟨0x7FC00000, false, false, false, false⟩ :=
  ⟨Or.inl (by decide), ref_model_nan_dominance (Or.inl (by decide))⟩

/-- Claim C4: when neither operand is NaN, one operand is Infinity and
the other is effectively zero (Zero or Subnormal), in either order,
ref_model sets invalid and returns the fixed quiet-NaN pattern
0x7FC00000 with every other flag false. -/
theorem ref_model_inf_times_zero_invalid {a b : Nat}
    (hna : is_nan_bits a = false) (hnb : is_nan_bits b = false)
    (h : (is_inf_bits a = true ∧ eff_zero b = true) ∨
      (is_inf_bits b = true ∧ eff_zero a = true)) :
    ref_model a b = ⟨0x7FC00000, true, false, false, false⟩ := by
  unfold ref_model
  rcases h with ⟨h1, h2⟩ | ⟨h1, h2⟩ <;> simp [hna, hnb, h1, h2, qnan_const]

/-- Witness for claim C4 at the directed pair (0x7F800000, 0x00000000),
the +Inf times +0 case. -/
theorem ref_model_inf_times_zero_invalid_witness :
    (is_nan_bits 0x7F800000 = false ∧ is_nan_bits 0x00000000 = false ∧
      is_inf_bits 0x7F800000 = true ∧ eff_zero 0x00000000 = true) ∧
      ref_model 0x7F800000 0x00000000 = ⟨0x7FC00000, true, false, false, false⟩ :=
  ⟨⟨by decide, by decide, by decide, by decide⟩,
    ref_model_inf_times_zero_invalid (by decide) (by decide)
      (Or.inl ⟨by decide, by decide⟩)⟩

/-- Claim C9 is violated by the code: when flag checking is disabled a
test case fails only on an output mismatch (the second and third
conjuncts show that a value match with a differing inexact flag still
returns ok = true), but the informational note distinguishing a
flags-only mismatch is never emitted: the branch printing it requires
ok = false, which is impossible once the output values match and flag
checking is off. The first conjunct proves the note is unreachable for
all inputs. -/
theorem run_one_flags_ignored_note_never_emitted :
    (∀ (check_flags print_ok verbose : Bool) (d : DutOut) (a b : Nat),
      (run_one check_flags print_ok verbose d a b).2 ≠ some MismatchNote.flagsIgnored) ∧
    (∀ print_ok verbose : Bool,
      run_one false print_ok verbose ⟨0x3F800000, false, false, false, true⟩
        0x3F800000 0x3F800000 = (true, none)) ∧
    (ref_model 0x3F800000 0x3F800000).y = 0x3F800000 ∧
    (ref_model 0x3F800000 0x3F800000).inexact = false := by
  refine ⟨?_, by decide, by decide, by decide⟩
  intro cf pok v d a b
  unfold run_one
  cases cf <;> cases h : d.y == (ref_model a b).y <;> simp [h]

theorem res_sign_comm (a b : Nat) : res_sign a b = res_sign b a := by
  unfold res_sign
  rw [Nat.xor_comm]

theorem prod_exp_comm (a b : Nat) : prod_exp a b = prod_exp b a := by
  unfold prod_exp
  ring

theorem prod_sig_comm (a b : Nat) : prod_sig a b = prod_sig b a := by
  unfold prod_sig
  rw [Nat.mul_comm]

/-- Claim C3: multiplication is commutative. For every pair of 32-bit
operands, ref_model returns the same output bit pattern and the same
four flags when the operands are swapped. -/
theorem ref_model_comm (a b : Nat) : ref_model a b = ref_model b a := by
  unfold ref_model
  rw [Bool.or_comm (is_nan_bits a) (is_nan_bits b),
    Bool.or_comm (is_inf_bits a && eff_zero b) (is_inf_bits b && eff_zero a),
    Bool.or_comm (is_inf_bits a) (is_inf_bits b),
    Bool.or_comm (eff_zero a) (eff_zero b),
    res_sign_comm a b, prod_exp_comm a b, prod_sig_comm a b]

/-- Claim C8: at most one of the three terminal conditions holds in any
ref_model output: invalid, overflow and underflow are pairwise
mutually exclusive. -/
theorem ref_model_flags_mutually_exclusive (a b : Nat) :
    ((ref_model a b).invalid && (ref_model a b).overflow) = false ∧
      ((ref_model a b).invalid && (ref_model a b).underflow) = false ∧
      ((ref_model a b).overflow && (ref_model a b).underflow) = false := by
  unfold ref_model ref_normal
  split
  · simp
  · split
    · simp
    · split
      · simp
      · split
        · simp
        · split
          · simp
          · split <;> simp

theorem sign_bit_inf_pack (s : Nat) : sign_bit ((s <<< 31) ||| ((0xFF : Nat) <<< 23)) = s := by
  have h := sign_bit_pack s 0xFF 0 (by decide) (by decide)
  rwa [Nat.or_zero] at h

theorem sign_bit_zero_pack (s : Nat) : sign_bit (pack_signed_zero s) = s := by
  have h := sign_bit_pack s 0 0 (by decide) (by decide)
  rw [Nat.zero_shiftLeft, Nat.or_zero, Nat.or_zero] at h
  unfold pack_signed_zero
  exact h

theorem frac_out_lt (prod : Nat) : final_upper prod &&& 0x7FFFFF < 2 ^ 23 := by
  rw [and_mask23]
  exact Nat.mod_lt _ (by norm_num)

/-- Claim C5: whenever the ref_model output is not the fixed quiet-NaN
pattern 0x7FC00000, the sign bit of the output equals the XOR of the
sign bits of the two operands. -/
theorem ref_model_sign_rule {a b : Nat} (ha : a < 2 ^ 32) (hb : b < 2 ^ 32)
    (h : (ref_model a b).y ≠ 0x7FC00000) :
    sign_bit (ref_model a b).y = sign_bit a ^^^ sign_bit b := by
  rw [← res_sign_eq ha hb]
  unfold ref_model at h ⊢
  rcases hc1 : (is_nan_bits a || is_nan_bits b) with _ | _
  case true => simp [hc1, qnan_const] at h
  case false =>
  simp only [hc1, Bool.false_eq_true, if_false] at h ⊢
  rcases hc2 : ((is_inf_bits a && eff_zero b) || (is_inf_bits b && eff_zero a)) with _ | _
  case true => simp [hc2, qnan_const] at h
  case false =>
  simp only [hc2, Bool.false_eq_true, if_false] at h ⊢
  rcases hc3 : (is_inf_bits a || is_inf_bits b) with _ | _
  case true =>
    simp only [hc3, if_true]
    exact sign_bit_inf_pack _
  case false =>
  simp only [hc3, Bool.false_eq_true, if_false] at h ⊢
  rcases hc4 : (eff_zero a || eff_zero b) with _ | _
  case true =>
    simp only [hc4, if_true]
    exact sign_bit_zero_pack _
  case false =>
  simp only [hc4, Bool.false_eq_true, if_false] at h ⊢
  unfold ref_normal
  split
  · exact sign_bit_inf_pack _
  · split
    · exact sign_bit_zero_pack _
    · exact sign_bit_pack _ _ _ (exp_out_lt _ _) (frac_out_lt _)

/-- Witness for claim C5 at the pair (0xBF800000, 0x3F800000), the
product of -1.0 and 1.0. -/
theorem ref_model_sign_rule_witness :
    ((0xBF800000 : Nat) < 2 ^ 32 ∧ (0x3F800000 : Nat) < 2 ^ 32 ∧
      (ref_model 0xBF800000 0x3F800000).y ≠ 0x7FC00000) ∧
      sign_bit (ref_model 0xBF800000 0x3F800000).y =
        sign_bit 0xBF800000 ^^^ sign_bit 0x3F800000 :=
  ⟨⟨by decide, by decide, by decide⟩,
    ref_model_sign_rule (by decide) (by decide) (by decide)⟩

theorem exp_field_inf_pack (s : Nat) :
    exp_field ((s <<< 31) ||| ((0xFF : Nat) <<< 23)) = 0xFF := by
  have h := exp_field_pack s 0xFF 0 (by decide) (by decide)
  rwa [Nat.or_zero] at h

theorem frac_field_zero_pack (s : Nat) : frac_field (pack_signed_zero s) = 0 := by
  have h := frac_field_pack s 0 0 (by decide)
  rw [Nat.zero_shiftLeft, Nat.or_zero, Nat.or_zero] at h
  unfold pack_signed_zero
  exact h

theorem exp_out_pos {expP : Int} {prod : Nat}
    (h1 : ¬ final_exp expP prod > 127) (h2 : ¬ final_exp expP prod < -126) :
    1 ≤ exp_out expP prod := by
  unfold exp_out
  rw [and_mask8]
  have hmod : (final_exp expP prod + 127) % ((2 : Int) ^ 32) = final_exp expP prod + 127 :=
    Int.emod_eq_of_lt (by omega) (by omega)
  rw [hmod]
  omega

/-- Claim C6: on the Normal-by-Normal path, whenever the final unbiased
exponent after rounding is below -126, ref_model sets underflow and
inexact and returns signed zero with the computed result sign; and for
all input pairs the output of ref_model is never a subnormal encoding. -/
theorem ref_model_underflow_flush_and_no_subnormal :
    (∀ a b : Nat, is_normal_bits a = true → is_normal_bits b = true →
      final_exp (prod_exp a b) (prod_sig a b) < -126 →
      ref_model a b = ⟨pack_signed_zero (res_sign a b), false, false, true, true⟩) ∧
    (∀ a b : Nat, is_sub_bits (ref_model a b).y = false) := by
  constructor
  · intro a b ha hb hu
    rw [ref_model_normal_path ha hb]
    unfold ref_normal
    rw [if_neg (by omega), if_pos hu]
  · intro a b
    unfold ref_model
    rcases hc1 : (is_nan_bits a || is_nan_bits b) with _ | _
    case true => simp only [hc1, if_true]; decide
    case false =>
    simp only [hc1, Bool.false_eq_true, if_false]
    rcases hc2 : ((is_inf_bits a && eff_zero b) || (is_inf_bits b && eff_zero a)) with _ | _
    case true => simp only [hc2, if_true]; decide
    case false =>
    simp only [hc2, Bool.false_eq_true, if_false]
    rcases hc3 : (is_inf_bits a || is_inf_bits b) with _ | _
    case true =>
      simp only [hc3, if_true, is_sub_bits]
      rw [exp_field_inf_pack]
      simp
    case false =>
    simp only [hc3, Bool.false_eq_true, if_false]
    rcases hc4 : (eff_zero a || eff_zero b) with _ | _
    case true =>
      simp only [hc4, if_true, is_sub_bits]
      rw [frac_field_zero_pack]
      simp
    case false =>
    simp only [hc4, Bool.false_eq_true, if_false]
    unfold ref_normal
    split
    · simp only [is_sub_bits]
      rw [exp_field_inf_pack]
      simp
    · split
      · simp only [is_sub_bits]
        rw [frac_field_zero_pack]
        simp
      · next h1 h2 =>
        have he := exp_field_pack (res_sign a b)
          (exp_out (prod_exp a b) (prod_sig a b))
          (final_upper (prod_sig a b) &&& 0x7FFFFF)
          (exp_out_lt _ _) (frac_out_lt _)
        have hpos := exp_out_pos h1 h2
        have hne : exp_out (prod_exp a b) (prod_sig a b) ≠ 0 := by omega
        simp only [is_sub_bits]
        rw [he]
        simp [hne]

/-- Witness for claim C6 at the directed flush-to-zero pair
(0x00800000, 0x3F000000), the product of the minimum normal and 0.5. -/
theorem ref_model_underflow_flush_and_no_subnormal_witness :
    (is_normal_bits 0x00800000 = true ∧ is_normal_bits 0x3F000000 = true ∧
      final_exp (prod_exp 0x00800000 0x3F000000) (prod_sig 0x00800000 0x3F000000) < -126) ∧
      ref_model 0x00800000 0x3F000000 =
        ⟨pack_signed_zero (res_sign 0x00800000 0x3F000000), false, false, true, true⟩ :=
  ⟨⟨by decide, by decide, by decide⟩,
    ref_model_underflow_flush_and_no_subnormal.1 0x00800000 0x3F000000
      (by decide) (by decide) (by decide)⟩

/-- Claim C10: multiplication by 1.0 (pattern 0x3F800000) is an
identity on Normal operands: ref_model returns the operand unchanged
with all four flags false. -/
theorem ref_model_mul_one_identity {a : Nat} (ha32 : a < 2 ^ 32)
    (ha : is_normal_bits a = true) :
    ref_model a 0x3F800000 = ⟨a, false, false, false, false⟩ := by
  have hb : is_normal_bits 0x3F800000 = true := by decide
  rw [ref_model_normal_path ha hb]
  have hfA : frac_field a < 2 ^ 23 := frac_field_lt a
  have hsig : ((1 : Nat) <<< 23) ||| frac_field a = 2 ^ 23 + frac_field a := by
    rw [shl_one]
    exact two_pow_or_eq_add hfA
  have hfb : frac_field 0x3F800000 = 0 := by decide
  have hprod : prod_sig a 0x3F800000 = (2 ^ 23 + frac_field a) * 2 ^ 23 := by
    unfold prod_sig
    rw [hfb, Nat.or_zero, hsig, shl_one]
  have hexpb : exp_field 0x3F800000 = 127 := by decide
  have hexp : prod_exp a 0x3F800000 = (exp_field a : Int) - 127 := by
    unfold prod_exp
    rw [hexpb]
    norm_num
  have hbound : (2 ^ 23 + frac_field a) * 2 ^ 23 < 2 ^ 47 := by
    have h1 : 2 ^ 23 + frac_field a ≤ 2 ^ 24 - 1 := by omega
    have h2 : (2 ^ 23 + frac_field a) * 2 ^ 23 ≤ (2 ^ 24 - 1) * 2 ^ 23 :=
      Nat.mul_le_mul_right _ h1
    have h3 : ((2 : Nat) ^ 24 - 1) * 2 ^ 23 < 2 ^ 47 := by norm_num
    omega
  have hb47 : prod_sig a 0x3F800000 &&& ((1 : Nat) <<< 47) = 0 := by
    rw [hprod]
    exact and_one_shl_eq_zero hbound
  have hsp : shifted_prod (prod_sig a 0x3F800000) = (2 ^ 23 + frac_field a) * 2 ^ 23 := by
    unfold shifted_prod
    rw [hb47, hprod]
    simp
  have hse : shifted_exp (prod_exp a 0x3F800000) (prod_sig a 0x3F800000) =
      (exp_field a : Int) - 127 := by
    unfold shifted_exp
    rw [hb47, hexp]
    simp
  have hup : upper_bits (prod_sig a 0x3F800000) = 2 ^ 23 + frac_field a := by
    unfold upper_bits
    rw [hsp, Nat.shiftRight_eq_div_pow, Nat.mul_div_cancel _ (by norm_num), and_mask24,
      Nat.mod_eq_of_lt (by omega)]
  have hg : guard_bit (prod_sig a 0x3F800000) = 0 := by
    unfold guard_bit
    rw [hsp, Nat.shiftRight_eq_div_pow, Nat.and_one_is_mod]
    have h22 : (2 ^ 23 + frac_field a) * 2 ^ 23 = ((2 ^ 23 + frac_field a) * 2) * 2 ^ 22 := by
      ring
    rw [h22, Nat.mul_div_cancel _ (by norm_num), Nat.mul_mod_left]
  have hr : round_bit (prod_sig a 0x3F800000) = 0 := by
    unfold round_bit
    rw [hsp, Nat.shiftRight_eq_div_pow, Nat.and_one_is_mod]
    have h21 : (2 ^ 23 + frac_field a) * 2 ^ 23 = ((2 ^ 23 + frac_field a) * 2 ^ 2) * 2 ^ 21 := by
      ring
    have h2 : (2 ^ 23 + frac_field a) * 2 ^ 2 = ((2 ^ 23 + frac_field a) * 2) * 2 := by
      ring
    rw [h21, Nat.mul_div_cancel _ (by norm_num), h2, Nat.mul_mod_left]
  have hlow : low21 (prod_sig a 0x3F800000) = 0 := by
    unfold low21
    rw [hsp, and_mask21]
    have h : (2 ^ 23 + frac_field a) * 2 ^ 23 = ((2 ^ 23 + frac_field a) * 2 ^ 2) * 2 ^ 21 := by
      ring
    rw [h, Nat.mul_mod_left]
  have hst : sticky_bit (prod_sig a 0x3F800000) = 0 := by
    unfold sticky_bit
    rw [hlow]
    simp
  have hinc : round_inc (prod_sig a 0x3F800000) = 0 := by
    unfold round_inc
    rw [hg]
    exact Nat.zero_and _
  have hru : rounded_upper (prod_sig a 0x3F800000) = 2 ^ 23 + frac_field a := by
    unfold rounded_upper
    rw [hup, hinc, Nat.add_zero]
  have hb24 : rounded_upper (prod_sig a 0x3F800000) &&& ((1 : Nat) <<< 24) = 0 := by
    rw [hru]
    exact and_one_shl_eq_zero (by omega)
  have hfe : final_exp (prod_exp a 0x3F800000) (prod_sig a 0x3F800000) =
      (exp_field a : Int) - 127 := by
    unfold final_exp
    rw [hb24, hse]
    simp
  have hfu : final_upper (prod_sig a 0x3F800000) = 2 ^ 23 + frac_field a := by
    unfold final_upper
    rw [hb24, hru]
    simp
  rw [is_normal_iff] at ha
  have hea := exp_field_lt a
  have h1 : ¬ (final_exp (prod_exp a 0x3F800000) (prod_sig a 0x3F800000) > 127) := by
    rw [hfe]
    omega
  have h2 : ¬ (final_exp (prod_exp a 0x3F800000) (prod_sig a 0x3F800000) < -126) := by
    rw [hfe]
    omega
  have heo : exp_out (prod_exp a 0x3F800000) (prod_sig a 0x3F800000) = exp_field a := by
    unfold exp_out
    rw [hfe]
    have h3 : (exp_field a : Int) - 127 + 127 = (exp_field a : Int) := by ring
    rw [h3]
    have h4 : ((exp_field a : Int)) % ((2 : Int) ^ 32) = (exp_field a : Int) :=
      Int.emod_eq_of_lt (by omega) (by omega)
    rw [h4]
    have h5 : ((exp_field a : Int)).toNat = exp_field a := by omega
    rw [h5, and_mask8, Nat.mod_eq_of_lt (by omega)]
  have hfo : final_upper (prod_sig a 0x3F800000) &&& 0x7FFFFF = frac_field a := by
    rw [hfu, and_mask23]
    omega
  have hsb : sign_bit 0x3F800000 = 0 := by decide
  have hrs : res_sign a 0x3F800000 = sign_bit a := by
    unfold res_sign
    rw [hsb, Nat.xor_zero, Nat.and_one_is_mod, Nat.mod_eq_of_lt (sign_bit_lt ha32)]
  unfold ref_normal
  rw [if_neg h1, if_neg h2, hrs, heo, hfo, hg, hr, hst, unpack_fields]
  simp

/-- Witness for claim C10 at the operand 0x40490FDB (the float nearest
to pi) times 1.0. -/
theorem ref_model_mul_one_identity_witness :
    ((0x40490FDB : Nat) < 2 ^ 32 ∧ is_normal_bits 0x40490FDB = true) ∧
      ref_model 0x40490FDB 0x3F800000 = ⟨0x40490FDB, false, false, false, false⟩ :=
  ⟨⟨by decide, by decide⟩, ref_model_mul_one_identity (by decide) (by decide)⟩
